import Mathlib

/- Verification development for the PDF text-extraction pipeline
   (src/pdf_processor.py, src/ocr_processor.py, src/app.py).

   Shallow embedding conventions:
   * Python `str` is modeled as `List Char`, restricted to the ASCII
     behaviour of the regex classes `\w`, `\s`, `[A-Z]` that the code uses.
   * The numeric score and the float thresholds are modeled exactly over ℚ.
     The comparisons `len(a) > len(b) * 1.5`, `len(b) > len(a) * 1.2` and
     `d > n * 0.3` are performed by CPython on integer operands; since
     1.5 is exact in binary and for 1.2 and 0.3 the rounded product
     `fl(n * fl(x))` equals the rational `n * x` whenever `n * x` is an
     integer (the error `n * (x - fl(x))` is below half an ulp), the float
     comparisons coincide with the rational ones used here:
     `2*la > 3*lb`, `5*lb > 6*la`, `10*d > 3*n`.
   * The OCR backend (pytesseract) is an external collaborator; it is
     modeled as an oracle: an availability bit (get_tesseract_version
     succeeding) plus a map from the invocation index to the text returned
     by that `image_to_string` call, `none` denoting a raised exception.
   * Raster images are grids of pixel intensities, `List (List Nat)`;
     `PIL.Image.rotate` is likewise an oracle since its resampling is not
     part of this repository. -/

/-- Python regex class \s (and the str.strip default set), ASCII range. -/
def isPySpace (c : Char) : Bool :=
  c == ' ' || c == '\t' || c == '\n' || c == '\r' || c == Char.ofNat 11 || c == Char.ofNat 12

/-- Python regex class \w, ASCII range: alphanumeric or underscore. -/
def isWordChar (c : Char) : Bool := c.isAlphanum || c == '_'

/-- Sentence terminators of the regex [A-Z][^.!?]*[.!?] used by the scorer. -/
def isTerm (c : Char) : Bool := c == '.' || c == '!' || c == '?'

/-- Punctuation allow-list shared by the garbage-character regex of
`clean_ocr_text` and of `select_best_ocr_result`:
the class complement of `[^\w\s.,;:'"!?\-()\[\]\x7b\x7d$@#%&*+=/\\]`. -/
def punctChars : List Char :=
  ['.', ',', ';', ':', Char.ofNat 39, Char.ofNat 34, '!', '?', '-', '(', ')',
   '[', ']', Char.ofNat 123, Char.ofNat 125, '$', '@', '#', '%', '&', '*', '+', '=', '/',
   Char.ofNat 92]

/-- Character kept by the garbage filters: word char, whitespace, or allowed
punctuation. -/
def allowedChar (c : Char) : Bool := isWordChar c || isPySpace c || punctChars.contains c

/-- Python str.lower, ASCII range. -/
def lowerList (l : List Char) : List Char := l.map Char.toLower

/-- Python str.strip(): drop leading and trailing whitespace. -/
def pyStrip (l : List Char) : List Char :=
  ((l.dropWhile isPySpace).reverse.dropWhile isPySpace).reverse

/-- Length of the stripped text, `len(text.strip())`. -/
def stripLen (l : List Char) : Nat := (pyStrip l).length

/-- Accumulator worker for `re.findall(r'\b\w+\b', text)`: `acc` holds the
current word reversed. -/
def pwAux : List Char → List Char → List (List Char)
  | acc, [] => if acc.isEmpty then [] else [acc.reverse]
  | acc, c :: rest =>
    if isWordChar c then pwAux (c :: acc) rest
    else if acc.isEmpty then pwAux [] rest
    else acc.reverse :: pwAux [] rest

/-- Maximal runs of word characters: `re.findall(r'\b\w+\b', text)`. -/
def pyWords (l : List Char) : List (List Char) := pwAux [] l

/-- The `words` list used by the scorer and the fuser:
`re.findall(r'\b\w+\b', text.lower())`. -/
def wordList (t : List Char) : List (List Char) := pyWords (lowerList t)

/-- Number of words of the lowered text. -/
def wordCount (t : List Char) : Nat := (wordList t).length

/-- Total length of the words of the lowered text. -/
def wordLenSum (t : List Char) : Nat := ((wordList t).map List.length).sum

/-- Set of distinct words of the lowered text, as used by
`enhance_text_extraction` (Python `set(...)`). -/
def wordFinset (t : List Char) : Finset (List Char) := (wordList t).toFinset

/-- Scanner worker for `re.findall(r'[A-Z][^.!?]*[.!?]', text)`: the flag is
true while inside a candidate match (an uppercase letter has been seen and no
terminator yet).  Matches are non-overlapping and resume after the
terminator, which is exactly this state machine. -/
def scAux : Bool → List Char → Nat
  | _, [] => 0
  | inm, c :: rest =>
    if inm then (if isTerm c then 1 + scAux false rest else scAux true rest)
    else scAux c.isUpper rest

/-- Count of sentence-like patterns `[A-Z][^.!?]*[.!?]`. -/
def sentCount (t : List Char) : Nat := scAux false t

/-- Number of characters outside the allow-list (the garbage characters). -/
def garbageCount (t : List Char) : Nat := (t.filter (fun c => !allowedChar c)).length

/-- Garbage ratio `garbage_count / max(1, len(text))`. -/
def garbageFrac (t : List Char) : ℚ := (garbageCount t : ℚ) / (max 1 t.length : ℚ)

/-- Average word length `sum(len(w) for w in words) / max(1, len(words))`. -/
def avgWordLen (t : List Char) : ℚ := (wordLenSum t : ℚ) / (max 1 (wordCount t) : ℚ)

/-- Bonus condition `3 <= avg_word_len <= 10` of the scorer, written with the
positive denominator `max 1 (wordCount t)` multiplied out so that the kernel
can evaluate it. -/
def bandB (t : List Char) : Bool :=
  3 * max 1 (wordCount t) ≤ wordLenSum t && wordLenSum t ≤ 10 * max 1 (wordCount t)

/-- Quality score of one OCR attempt, from `select_best_ocr_result`:
`0.01*len(text.strip()) + 0.5*len(words) + (10 if 3<=avg<=10 else 0)
 - 100*garbage_ratio + 5*sentence_like`. -/
def score (t : List Char) : ℚ :=
  (stripLen t : ℚ) / 100 + (wordCount t : ℚ) / 2 + (if bandB t then 10 else 0)
    - 100 * garbageFrac t + 5 * (sentCount t : ℚ)

/-- Index of the first occurrence of `x`, Python `list.index(x)` (0 when
absent, matching the code only in the present case `x ∈ l`). -/
def idxOfFirst (x : ℚ) : List ℚ → Nat
  | [] => 0
  | a :: as => if a = x then 0 else idxOfFirst x as + 1

/-- Source model of `select_best_ocr_result(results)`: empty list gives "",
a single result is returned unscored, otherwise the result at
`scores.index(max(scores))` is returned. -/
def select_best_ocr_result : List (List Char) → List Char
  | [] => []
  | [t] => t
  | r :: rs =>
    let scores := (r :: rs).map score
    let m := scores.foldl max (score r)
    (r :: rs).getD (idxOfFirst m scores) []

/-- First index attaining the maximal score, `scores.index(max(scores))`. -/
def bestScoreIdx (rs : List (List Char)) : Nat :=
  idxOfFirst ((rs.map score).foldl max (score (rs.headD []))) (rs.map score)

/- ----- the text cleaner clean_ocr_text ----- -/

/-- Stage `re.sub(r'[|]', 'I', text)`. -/
def mapPipe (l : List Char) : List Char := l.map (fun c => if c = '|' then 'I' else c)

/-- Stage `re.sub(r'[“”]', '"', text)`. -/
def mapDQuote (l : List Char) : List Char :=
  l.map (fun c => if c = Char.ofNat 8220 || c = Char.ofNat 8221 then Char.ofNat 34 else c)

/-- Stage `re.sub(r'[‘’]', "'", text)`. -/
def mapSQuote (l : List Char) : List Char :=
  l.map (fun c => if c = Char.ofNat 8216 || c = Char.ofNat 8217 then Char.ofNat 39 else c)

/-- Stage `re.sub(r'(\w)- (\w)', r'\1\2', text)`: left-to-right
non-overlapping scan, resuming after each 4-character match. -/
def dehyph : List Char → List Char
  | a :: b :: c :: d :: rest =>
    if isWordChar a && b == '-' && c == ' ' && isWordChar d then
      a :: d :: dehyph rest
    else a :: dehyph (b :: c :: d :: rest)
  | l => l

/-- Stage `re.sub(r'(?<!\n)\n(?!\n)', ' ', text)`: a newline with no
neighbouring newline (in the original text) becomes a space.  The lookarounds
inspect the original string, hence the carried previous character. -/
def nlToSpace : Option Char → List Char → List Char
  | _, [] => []
  | prev, c :: rest =>
    (if c = '\n' ∧ prev ≠ some '\n' ∧ rest.head? ≠ some '\n' then ' ' else c) ::
      nlToSpace (some c) rest

/-- Stage `re.sub(r'\n\x7b2,\x7d', '\n\n', text)`: each maximal run of `m ≥ 2`
newlines becomes exactly two; `k` counts the newlines already emitted for the
current run (capped at 2). -/
def cnAux : Nat → List Char → List Char
  | _, [] => []
  | k, c :: rest =>
    if c = '\n' then
      (if k < 2 then '\n' :: cnAux (k + 1) rest else cnAux k rest)
    else c :: cnAux 0 rest

/-- Run-capping newline collapse (see `cnAux`). -/
def collapseNl (l : List Char) : List Char := cnAux 0 l

/-- Python `str.replace` for a two-character pattern `[a,b] → [x,y]`:
all non-overlapping occurrences, scanned left to right. -/
def repl2 (a b x y : Char) : List Char → List Char
  | c :: d :: rest =>
    if c = a ∧ d = b then x :: y :: repl2 a b x y rest
    else c :: repl2 a b x y (d :: rest)
  | l => l

/-- Stage `re.sub(r'[^\w\s...]', '', text)`: drop garbage characters. -/
def dropGarbage (l : List Char) : List Char := l.filter allowedChar

/-- Worker for `re.sub(r'\s+', ' ', text)`: the flag says whether the scan is
inside a whitespace run whose single replacement space was already emitted. -/
def cwAux : Bool → List Char → List Char
  | _, [] => []
  | inWs, c :: rest =>
    if isPySpace c then
      (if inWs then cwAux true rest else ' ' :: cwAux true rest)
    else c :: cwAux false rest

/-- Whitespace-run collapse `re.sub(r'\s+', ' ', text)`. -/
def collapseWs (l : List Char) : List Char := cwAux false l

/-- Source model of `clean_ocr_text(text)` (src/ocr_processor.py): pipe→I,
quote normalization, dehyphenation, newline fixes, the six digit/letter
confusion replacements, garbage removal, whitespace collapse and strip. -/
def clean_ocr_text (t : List Char) : List Char :=
  if t.isEmpty then [] else
  pyStrip (collapseWs (dropGarbage
    (repl2 '1' 'I' '1' '1' (repl2 'I' '1' '1' '1'
      (repl2 '1' 'l' '1' '1' (repl2 'l' '1' '1' '1'
        (repl2 '0' 'O' '0' '0' (repl2 'O' '0' '0' '0'
          (collapseNl (nlToSpace none (dehyph (mapSQuote (mapDQuote (mapPipe t))))))))))))))

/-- Source model of `clean_text(text)` (src/pdf_processor.py): whitespace
collapse, strip, then pipe→I and zero→O character replacements. -/
def clean_text (t : List Char) : List Char :=
  if t.isEmpty then [] else
  (pyStrip (collapseWs t)).map
    (fun c => if (if c = '|' then 'I' else c) = '0' then 'O' else (if c = '|' then 'I' else c))

/- ----- the source fuser ----- -/

/-- Cleanup applied by `enhance_text_extraction` to the chosen base text:
pipe→I, the two `O0`/`0O` replacements, whitespace collapse and strip. -/
def enhCleanup (t : List Char) : List Char :=
  pyStrip (collapseWs (repl2 '0' 'O' '0' '0' (repl2 'O' '0' '0' '0' (mapPipe t))))

/-- Source model of `enhance_text_extraction(pdf_text, ocr_text)`
(src/ocr_processor.py 351-385): empty/whitespace-only sides short-circuit,
then the base is the OCR text exactly when its novel unique words exceed
0.3 of the embedded unique-word count, and the base is cleaned. -/
def enhance_text_extraction (pdf_text ocr_text : List Char) : List Char :=
  if pyStrip pdf_text = [] then ocr_text
  else if pyStrip ocr_text = [] then pdf_text
  else
    let pdf_words := wordFinset pdf_text
    let ocr_words := wordFinset ocr_text
    let base_text := if 3 * pdf_words.card < 10 * (ocr_words \ pdf_words).card
      then ocr_text else pdf_text
    enhCleanup base_text

/-- The per-page fusion decision of `process_pdf` (src/pdf_processor.py
71-80) composed with `enhance_text_extraction`: prefer the embedded text
when strictly more than 1.5 times longer, else the OCR text when strictly
more than 1.2 times longer, else enhance. -/
def fuse (pdf_text ocr_text : List Char) : List Char :=
  if 3 * ocr_text.length < 2 * pdf_text.length then pdf_text
  else if 6 * pdf_text.length < 5 * ocr_text.length then ocr_text
  else enhance_text_extraction pdf_text ocr_text

/- ----- the OCR attempt engine ----- -/

/-- Preprocessing variants of `preprocess_image`. -/
inductive PMethod
  | standard
  | high_contrast
  | document
  | advanced
deriving DecidableEq

/-- The OCR backend oracle: `available` models `pytesseract.get_tesseract_version()`
succeeding, and `run k` the text returned by the k-th
`pytesseract.image_to_string` call of one `extract_text_from_image`
invocation (`none` models that call raising). The image arguments do not
influence this model: the backend is an external collaborator, and the claims
checked here depend only on which calls are made about it. -/
structure Backend where
  available : Bool
  run : Nat → Option (List Char)

/-- Preprocessing methods attempted for a quality level
(src/ocr_processor.py 192-200). -/
def methodsFor (quality_level : List Char) : List PMethod :=
  if quality_level = "fast".toList then [.standard]
  else if quality_level = "high".toList then [.standard, .high_contrast, .document, .advanced]
  else [.standard, .high_contrast, .document]

/-- Page segmentation modes attempted for a quality level. -/
def psmsFor (quality_level : List Char) : List Nat :=
  if quality_level = "fast".toList then [6]
  else if quality_level = "high".toList then [6, 3, 4, 11, 12]
  else [6, 3, 4]

/-- Message returned when `get_tesseract_version` raises. -/
def tessUnavailableMsg : List Char :=
  "OCR extraction failed: Tesseract OCR engine not available on this system.".toList

/-- Message returned when the initial test OCR call raises. -/
def tessInitFailedMsg : List Char :=
  "OCR processing unavailable. Tesseract initialization failed.".toList

/-- Message returned when the last-resort bare OCR call raises, and by the
outer exception handler. -/
def ocrFailedMsg : List Char := "OCR processing failed.".toList

/-- Message returned when the last-resort bare OCR call yields empty text. -/
def noTextMsg : List Char := "No text was detected.".toList

/-- The method × psm loop of `extract_text_from_image`: one backend call per
configuration; `k` is the next backend invocation index, `acc` the kept
results.  An attempt is kept when its text has `len(text.strip()) > 10`; a
raised attempt (`none`) is logged and skipped; both count as one call. -/
def runAttempts (b : Backend) : List (PMethod × Nat) → Nat → List (List Char) →
    Nat × List (List Char)
  | [], k, acc => (k, acc)
  | _ :: rest, k, acc =>
    match b.run k with
    | none => runAttempts b rest (k + 1) acc
    | some t =>
      if 10 < stripLen t then runAttempts b rest (k + 1) (acc ++ [clean_ocr_text t])
      else runAttempts b rest (k + 1) acc

/-- Source model of `extract_text_from_image(image, quality_level)`
(src/ocr_processor.py 161-265), returning the extracted text together with
the number of `image_to_string` backend invocations performed.
Call 0 is the connectivity-test invocation on the preprocessed image
(lines 211-220); calls 1.. are the method × psm cross-product; when every
attempt is discarded or raises, one extra bare call is the last resort. -/
def extract_text_from_image (b : Backend) (quality_level : List Char) :
    List Char × Nat :=
  if !b.available then (tessUnavailableMsg, 0)
  else
    match b.run 0 with
    | none => (tessInitFailedMsg, 1)
    | some _ =>
      let cfgs := (methodsFor quality_level).flatMap
        (fun m => (psmsFor quality_level).map (fun p => (m, p)))
      let res := runAttempts b cfgs 1 []
      if res.2 ≠ [] then (select_best_ocr_result res.2, res.1)
      else
        match b.run res.1 with
        | none => (ocrFailedMsg, res.1 + 1)
        | some t =>
          (if t ≠ [] then clean_ocr_text t else noTextMsg, res.1 + 1)

/-- Number of OCR backend invocations one page's processing performs. -/
def pageOcrCalls (b : Backend) (quality_level : List Char) : Nat :=
  (extract_text_from_image b quality_level).2

/- ----- the page pipeline / orchestrator ----- -/

/-- Raster image: grid of pixel intensities. -/
abbrev Img : Type := List (List Nat)

/-- The blank white placeholder `Image.new('RGB', (800, 1100), (255,255,255))`
of the fallback path, as a grayscale grid. -/
def blankImage : Img := List.replicate 1100 (List.replicate 800 255)

/-- Fallback sentinel `page.extract_text() or "Text extraction failed"`. -/
def extractionFailedMsg : List Char := "Text extraction failed".toList

/-- One page of the main path of `process_pdf` (src/pdf_processor.py 54-82):
clean the embedded text, obtain and clean the OCR text when the page has a
corresponding image, and fuse. -/
def pageText (b : Backend) (quality_level : List Char) (haveImage : Bool)
    (embedded : List Char) : List Char :=
  let pdf_text := clean_text embedded
  let ocr_text := if haveImage then clean_text (extract_text_from_image b quality_level).1
    else []
  fuse pdf_text ocr_text

/-- Source model of `process_pdf(pdf_path, dpi)` (src/pdf_processor.py
29-116).  `doc` is the document: the embedded text of each page
(`page.extract_text() or ""`).  `mainOk` models the main try block not
raising; per the renderer contract (`pdf2image.convert_from_path`), it then
yields one image per page, `render i`.  `fallbackOk` models the fallback
text extraction not raising.  `B i` is the backend oracle consumed by page
i, `quality_level` the ambient `st.session_state.ocr_quality` value. -/
def process_pdf (doc : List (List Char)) (mainOk fallbackOk : Bool)
    (render : Nat → Img) (B : Nat → Backend) (quality_level : List Char) :
    List Img × List (List Char) :=
  if mainOk then
    let images := (List.range doc.length).map render
    (images, (List.range doc.length).map (fun i =>
      pageText (B i) quality_level (decide (i < images.length)) (doc.getD i [])))
  else if fallbackOk then
    let fallback_texts := doc.map (fun p => if p.isEmpty then extractionFailedMsg else p)
    let fallback_images :=
      if !fallback_texts.isEmpty then (List.range doc.length).map (fun _ => blankImage)
      else []
    if !fallback_images.isEmpty && !fallback_texts.isEmpty then
      (fallback_images, fallback_texts)
    else ([], [])
  else ([], [])

/-- Backend invocation counts of a whole document run. -/
def docOcrCalls (doc : List (List Char)) (B : Nat → Backend)
    (quality_level : List Char) : Nat :=
  ((List.range doc.length).map (fun i => pageOcrCalls (B i) quality_level)).sum

/- ----- deskew ----- -/

/-- Row-wise pixel sums, `np.sum(img_array, axis=1)`. -/
def hProjection (img : Img) : List Nat := img.map List.sum

/-- Adjacent differences, `np.diff(h_projection)`. -/
def diffs (l : List Nat) : List Int :=
  List.zipWith (fun a b => (a : Int) - (b : Int)) l.tail l

/-- Integer value `Σ (n·x − S)²` over a list of n integers with sum S.
The population variance of `l` is `sqSumDev l / n³`, so real-valued
comparisons against it are performed below by multiplying the (positive)
denominators out; this keeps the exact real semantics of `np.std`
kernel-computable. -/
def sqSumDev (l : List Int) : Int :=
  ((l.map (fun x => ((l.length : Int) * x - l.sum) * ((l.length : Int) * x - l.sum))).sum)

/-- Count of peaks `np.where(np.abs(diff) > np.std(diff))`: entries with
`|x| > std`, i.e. `x² · n³ > Σ(n·x − S)²`.  On an empty list the numpy
comparison against nan is everywhere false, as here. -/
def peaksCount (d : List Int) : Nat :=
  d.countP (fun x =>
    decide (sqSumDev d < x * x * ((d.length : Int) * (d.length : Int) * (d.length : Int))))

/-- Comparison `np.std(hp) > np.std(cur)` with the cube denominators
multiplied out; false when either list is empty (numpy nan semantics). -/
def stdGtB (hp cur : List Nat) : Bool :=
  !hp.isEmpty && !cur.isEmpty &&
    decide (sqSumDev (cur.map (fun n => (n : Int))) *
        ((hp.length : Int) * (hp.length : Int) * (hp.length : Int)) <
      sqSumDev (hp.map (fun n => (n : Int))) *
        ((cur.length : Int) * (cur.length : Int) * (cur.length : Int)))

/-- Candidate angles `range(-15, 16)`. -/
def deskewAngles : List Int := (List.range 31).map (fun n => (n : Int) - 15)

/-- The angle-search loop of `deskew_image`: carries `best_angle` and the
mutable `h_projection` variable; `rot a` models
`image.rotate(angle, resample=BICUBIC, expand=False)` followed by the
projection of its result, with `none` modeling a raised exception, which
aborts the whole deskew. -/
def deskewLoop (rot : Int → Option Img) : List Int → Int → List Nat →
    Option (Int × List Nat)
  | [], best, cur => some (best, cur)
  | a :: rest, best, cur =>
    match rot a with
    | none => none
    | some timg =>
      let hp := hProjection timg
      if a = -15 || stdGtB hp cur then deskewLoop rot rest a hp
      else deskewLoop rot rest best cur

/-- Source model of `deskew_image(image)` (src/ocr_processor.py 105-159).
`rotate` is the PIL rotation oracle (`none` = raises). If the projection has
fewer than 2 peaks the input is returned; otherwise the brute-force angle
search runs and the image is rotated by the winning angle. -/
def deskew_image (rotate : Int → Img → Option Img) (image : Img) : Option Img :=
  let h_projection := hProjection image
  if peaksCount (diffs h_projection) < 2 then some image
  else
    match deskewLoop (fun a => rotate a image) deskewAngles 0 h_projection with
    | none => none
    | some br => rotate br.1 image

/-- The deskew step as its callers run it (src/ocr_processor.py 50-54 and
77-82): `try: return deskew_image(img) except: return img` — a raised
deskew yields the input unchanged. -/
def deskew_attempt (rotate : Int → Img → Option Img) (image : Img) : Img :=
  (deskew_image rotate image).getD image

/- ----- definitions written from the claim texts (for refutation /
amendment of C3 and C4) ----- -/

/-- Fusion policy as the specification words it (spec §4.5 / claim C3):
an empty or whitespace-only side short-circuits before any length
comparison, the length comparisons are non-strict ("at least 1.5 / 1.2
times longer"), and the normalization is applied to the chosen base. -/
def fuseSpec (embedded_text ocr_text : List Char) : List Char :=
  if pyStrip embedded_text = [] then ocr_text
  else if pyStrip ocr_text = [] then embedded_text
  else if 3 * ocr_text.length ≤ 2 * embedded_text.length then enhCleanup embedded_text
  else if 6 * embedded_text.length ≤ 5 * ocr_text.length then enhCleanup ocr_text
  else if 3 * (wordFinset embedded_text).card <
      10 * ((wordFinset ocr_text) \ (wordFinset embedded_text)).card then
    enhCleanup ocr_text
  else enhCleanup embedded_text

/-- Fusion policy as the code actually behaves (the amended claim C3): the
strict length comparisons come first and return the winner unmodified (even
a whitespace-only winner), the whitespace-only short-circuit applies only
afterwards, and only the lexical-novelty branch normalizes its base. -/
def fuseAmended (embedded_text ocr_text : List Char) : List Char :=
  if 3 * ocr_text.length < 2 * embedded_text.length then embedded_text
  else if 6 * embedded_text.length < 5 * ocr_text.length then ocr_text
  else if pyStrip embedded_text = [] then ocr_text
  else if pyStrip ocr_text = [] then embedded_text
  else if 3 * (wordFinset embedded_text).card <
      10 * ((wordFinset ocr_text) \ (wordFinset embedded_text)).card then
    enhCleanup ocr_text
  else enhCleanup embedded_text

/-- Characters on which every rewriting stage of `clean_ocr_text` is inert:
lowercase letters other than l, and the space. -/
def okChar (c : Char) : Bool := (c.isLower && !(c == 'l')) || c == ' '

/-- No leading space. -/
def noLeadSpace : List Char → Bool
  | [] => true
  | c :: _ => !(c == ' ')

/-- No two adjacent spaces. -/
def noDouble : List Char → Bool
  | a :: b :: rest => !(a == ' ' && b == ' ') && noDouble (b :: rest)
  | _ => true

/-- Strings already in cleaned shape: lowercase letters other than l and
single interior spaces.  `clean_ocr_text` is the identity here, hence
idempotent (the amended claim C4). -/
def cleanedShape (t : List Char) : Bool :=
  t.all okChar && noLeadSpace t && noLeadSpace t.reverse && noDouble t

/- ----- helper lemmas: list access ----- -/

theorem getD_map_lt {α β : Type} (f : α → β) (l : List α) (j : Nat) (d : β) (d' : α)
    (h : j < l.length) : (l.map f).getD j d = f (l.getD j d') := by
  rw [List.getD_eq_getElem _ _ (by simpa using h), List.getD_eq_getElem _ _ h,
    List.getElem_map]

theorem getD_range_map {β : Type} (f : Nat → β) (n i : Nat) (d : β) (h : i < n) :
    ((List.range n).map f).getD i d = f i := by
  rw [getD_map_lt f _ i d 0 (by simpa using h)]
  congr 1
  rw [List.getD_eq_getElem _ _ (by simpa using h)]
  simp

theorem length_dropWhile_le' {α : Type} (p : α → Bool) (l : List α) :
    (l.dropWhile p).length ≤ l.length :=
  (List.dropWhile_sublist p).length_le

/- ----- helper lemmas: strip length grows under append ----- -/

theorem stripLen_le_append (t s : List Char) : stripLen t ≤ stripLen (t ++ s) := by
  unfold stripLen pyStrip
  rw [List.dropWhile_append]
  by_cases h : (t.dropWhile isPySpace).isEmpty
  · have ht : t.dropWhile isPySpace = [] := by simpa [List.isEmpty_iff] using h
    simp [h, ht]
  · simp only [h, if_false, Bool.false_eq_true]
    rw [List.reverse_append, List.dropWhile_append]
    by_cases hs : (s.reverse.dropWhile isPySpace).isEmpty
    · simp [hs]
    · simp only [hs, if_false, Bool.false_eq_true, List.length_reverse, List.length_append]
      have h1 := length_dropWhile_le' isPySpace (t.dropWhile isPySpace).reverse
      simp only [List.length_reverse] at h1
      omega

/- ----- helper lemmas: word count grows under append ----- -/

theorem pwAux_length_pos (s : List Char) : ∀ acc : List Char, acc ≠ [] →
    1 ≤ (pwAux acc s).length := by
  induction s with
  | nil =>
    intro acc h
    have : acc.isEmpty = false := by simpa [List.isEmpty_iff] using h
    simp [pwAux, this]
  | cons c rest ih =>
    intro acc h
    by_cases hw : isWordChar c
    · simpa [pwAux, hw] using ih (c :: acc) (by simp)
    · have : acc.isEmpty = false := by simpa [List.isEmpty_iff] using h
      simp [pwAux, hw, this]

theorem pwAux_length_le_append (s : List Char) : ∀ (t : List Char) (acc : List Char),
    (pwAux acc t).length ≤ (pwAux acc (t ++ s)).length := by
  intro t
  induction t with
  | nil =>
    intro acc
    by_cases h : acc.isEmpty
    · simp [pwAux, h]
    · have := pwAux_length_pos s acc (by simpa [List.isEmpty_iff] using h)
      simpa [pwAux, h] using this
  | cons c rest ih =>
    intro acc
    by_cases hw : isWordChar c
    · simpa [pwAux, hw] using ih (c :: acc)
    · by_cases h : acc.isEmpty
      · simpa [pwAux, hw, h] using ih []
      · simpa [pwAux, hw, h] using ih []

theorem wordCount_le_append (t s : List Char) : wordCount t ≤ wordCount (t ++ s) := by
  unfold wordCount wordList lowerList pyWords
  rw [List.map_append]
  exact pwAux_length_le_append _ _ []

/- ----- helper lemmas: sentence count grows under append ----- -/

theorem scAux_le_append (s : List Char) : ∀ (t : List Char) (b : Bool),
    scAux b t ≤ scAux b (t ++ s) := by
  intro t
  induction t with
  | nil => intro b; simp [scAux]
  | cons c rest ih =>
    intro b
    cases b
    · simpa [scAux] using ih c.isUpper
    · by_cases hterm : isTerm c
      · simpa [scAux, hterm] using ih false
      · simpa [scAux, hterm] using ih true

theorem sentCount_le_append (t s : List Char) : sentCount t ≤ sentCount (t ++ s) :=
  scAux_le_append s t false

/- ----- helper lemmas: fold max and first index ----- -/

theorem foldl_max_le_self (l : List ℚ) : ∀ x : ℚ, x ≤ l.foldl max x := by
  induction l with
  | nil => intro x; simp
  | cons y l ih => intro x; exact le_trans (le_max_left x y) (ih (max x y))

theorem foldl_max_ge_mem (l : List ℚ) : ∀ x y, y ∈ l → y ≤ l.foldl max x := by
  induction l with
  | nil => intro x y h; cases h
  | cons z l ih =>
    intro x y h
    rcases List.mem_cons.mp h with rfl | h
    · exact le_trans (le_max_right x y) (foldl_max_le_self l (max x y))
    · exact ih (max x z) y h

theorem foldl_max_mem (l : List ℚ) : ∀ x, l.foldl max x ∈ x :: l := by
  induction l with
  | nil => intro x; simp
  | cons y l ih =>
    intro x
    rw [List.foldl_cons]
    have h := ih (max x y)
    rcases List.mem_cons.mp h with h' | h'
    · rw [h']
      rcases max_choice x y with hm | hm <;> rw [hm] <;> simp
    · simp [h']

theorem idxOfFirst_spec (x : ℚ) : ∀ l : List ℚ, x ∈ l →
    idxOfFirst x l < l.length ∧ l.getD (idxOfFirst x l) 0 = x ∧
      ∀ j, j < idxOfFirst x l → l.getD j 0 ≠ x := by
  intro l
  induction l with
  | nil => intro h; cases h
  | cons a as ih =>
    intro h
    by_cases ha : a = x
    · refine ⟨by simp [idxOfFirst, ha], by simp [idxOfFirst, ha], ?_⟩
      intro j hj
      simp [idxOfFirst, ha] at hj
    · have hx : x ∈ as := by
        rcases List.mem_cons.mp h with h' | h'
        · exact absurd h'.symm ha
        · exact h'
      obtain ⟨h1, h2, h3⟩ := ih hx
      refine ⟨by simp only [idxOfFirst, if_neg ha, List.length_cons]; omega, ?_, ?_⟩
      · simpa [idxOfFirst, ha] using h2
      · intro j hj
        rw [idxOfFirst, if_neg ha] at hj
        cases j with
        | zero => simpa using ha
        | succ j' =>
          have : j' < idxOfFirst x as := by omega
          simpa using h3 j' this

/- ----- helper lemmas: OCR engine call counting ----- -/

theorem runAttempts_fst (b : Backend) : ∀ (cfgs : List (PMethod × Nat)) (k : Nat)
    (acc : List (List Char)), (runAttempts b cfgs k acc).1 = k + cfgs.length := by
  intro cfgs
  induction cfgs with
  | nil => intro k acc; simp [runAttempts]
  | cons c rest ih =>
    intro k acc
    unfold runAttempts
    cases h : b.run k with
    | none =>
      dsimp only
      rw [ih]
      simp
      omega
    | some t =>
      dsimp only
      by_cases hl : 10 < stripLen t
      · rw [if_pos hl, ih]
        simp
        omega
      · rw [if_neg hl, ih]
        simp
        omega

theorem runAttempts_snd_length (b : Backend)
    (hgood : ∀ k, ∃ t, b.run k = some t ∧ 10 < stripLen t) :
    ∀ (cfgs : List (PMethod × Nat)) (k : Nat) (acc : List (List Char)),
      (runAttempts b cfgs k acc).2.length = acc.length + cfgs.length := by
  intro cfgs
  induction cfgs with
  | nil => intro k acc; simp [runAttempts]
  | cons c rest ih =>
    intro k acc
    obtain ⟨t, ht, hl⟩ := hgood k
    unfold runAttempts
    rw [ht]
    simp only [hl, if_pos]
    rw [ih]
    simp
    omega

theorem methodsFor_length_pos (q : List Char) : 1 ≤ (methodsFor q).length := by
  unfold methodsFor
  split_ifs <;> simp

theorem psmsFor_length_pos (q : List Char) : 1 ≤ (psmsFor q).length := by
  unfold psmsFor
  split_ifs <;> simp

theorem flatMap_pairs_length (ms : List PMethod) (ps : List Nat) :
    (ms.flatMap (fun m => ps.map (fun p => (m, p)))).length = ms.length * ps.length := by
  induction ms with
  | nil => simp
  | cons m rest ih => simp [List.flatMap_cons, ih]; ring

theorem extract_calls_pos (b : Backend) (q : List Char) (h : b.available = true) :
    1 ≤ (extract_text_from_image b q).2 := by
  unfold extract_text_from_image
  rw [h]
  simp only [Bool.not_true, Bool.false_eq_true, if_false]
  cases hr : b.run 0 with
  | none => simp
  | some t =>
    dsimp only
    have hc := runAttempts_fst b ((methodsFor q).flatMap
      (fun m => (psmsFor q).map (fun p => (m, p)))) 1 []
    split_ifs with hne
    · omega
    · cases hb : b.run (runAttempts b ((methodsFor q).flatMap
        (fun m => (psmsFor q).map (fun p => (m, p)))) 1 []).1 <;> dsimp only <;> omega

/- ----- helper lemmas: characters of cleaned shape ----- -/

theorem isLower_val (c : Char) (h : c.isLower = true) : 97 ≤ c.toNat ∧ c.toNat ≤ 122 := by
  unfold Char.isLower at h
  rw [Bool.and_eq_true, decide_eq_true_eq, decide_eq_true_eq] at h
  exact h

theorem char_val_isLower (c : Char) (h1 : 97 ≤ c.toNat) (h2 : c.toNat ≤ 122) :
    c.isLower = true := by
  unfold Char.isLower
  rw [Bool.and_eq_true, decide_eq_true_eq, decide_eq_true_eq]
  exact ⟨h1, h2⟩


theorem okChar_elim (c : Char) (h : okChar c = true) :
    c = ' ' ∨ (97 ≤ c.toNat ∧ c.toNat ≤ 122 ∧ c ≠ 'l') := by
  unfold okChar at h
  rw [Bool.or_eq_true] at h
  rcases h with h' | h'
  · rw [Bool.and_eq_true] at h'
    obtain ⟨hl, hn⟩ := h'
    obtain ⟨h1, h2⟩ := isLower_val c hl
    right
    refine ⟨h1, h2, ?_⟩
    intro he
    rw [he] at hn
    simp at hn
  · left
    exact beq_iff_eq.mp h'

theorem okChar_ne_out (c χ : Char) (h : okChar c = true) (hχ1 : χ ≠ ' ')
    (hχ2 : χ.toNat < 97 ∨ 122 < χ.toNat) : c ≠ χ := by
  intro he
  subst he
  rcases okChar_elim _ h with h' | ⟨h1, h2, _⟩
  · exact hχ1 h'
  · omega

theorem okChar_pySpace (c : Char) (h : okChar c = true) (hs : isPySpace c = true) :
    c = ' ' := by
  rcases okChar_elim _ h with h' | ⟨h1, h2, _⟩
  · exact h'
  · exfalso
    unfold isPySpace at hs
    simp only [Bool.or_eq_true, beq_iff_eq] at hs
    rcases hs with ((((rfl | rfl) | rfl) | rfl) | rfl) | rfl <;> exact absurd h1 (by decide)

theorem okChar_allowed (c : Char) (h : okChar c = true) : allowedChar c = true := by
  rcases okChar_elim _ h with rfl | ⟨h1, h2, _⟩
  · decide
  · have hl : c.isLower = true := char_val_isLower c h1 h2
    unfold allowedChar isWordChar Char.isAlphanum Char.isAlpha
    simp [hl]

/- ----- helper lemmas: each cleaning stage is inert on cleaned shapes ----- -/

theorem map_id_on (f : Char → Char) (l : List Char) (h : ∀ c ∈ l, f c = c) :
    l.map f = l := by
  rw [List.map_congr_left (g := id) h, List.map_id]

theorem mapPipe_id (t : List Char) (h : ∀ c ∈ t, c ≠ '|') : mapPipe t = t :=
  map_id_on _ t (fun c hc => if_neg (h c hc))

theorem mapDQuote_id (t : List Char)
    (h : ∀ c ∈ t, c ≠ Char.ofNat 8220 ∧ c ≠ Char.ofNat 8221) : mapDQuote t = t := by
  refine map_id_on _ t (fun c hc => ?_)
  have := h c hc
  rw [if_neg]
  simp only [Bool.or_eq_true, decide_eq_true_eq]
  tauto

theorem mapSQuote_id (t : List Char)
    (h : ∀ c ∈ t, c ≠ Char.ofNat 8216 ∧ c ≠ Char.ofNat 8217) : mapSQuote t = t := by
  refine map_id_on _ t (fun c hc => ?_)
  have := h c hc
  rw [if_neg]
  simp only [Bool.or_eq_true, decide_eq_true_eq]
  tauto

theorem dehyph_id : ∀ l : List Char, '-' ∉ l → dehyph l = l := by
  intro l
  induction l using dehyph.induct with
  | case1 a b c d rest hcond ih =>
    intro h
    exfalso
    simp only [Bool.and_eq_true, beq_iff_eq] at hcond
    exact h (by simp [hcond.1.1.2])
  | case2 a b c d rest hcond ih =>
    intro h
    have h' : '-' ∉ b :: c :: d :: rest := fun hm => h (List.mem_cons_of_mem a hm)
    have hstep : dehyph (a :: b :: c :: d :: rest) =
        a :: dehyph (b :: c :: d :: rest) := by
      show (if isWordChar a && b == '-' && c == ' ' && isWordChar d then
        a :: d :: dehyph rest else a :: dehyph (b :: c :: d :: rest)) = _
      rw [if_neg hcond]
    rw [hstep, ih h']
  | case3 l hl =>
    intro _
    match l, hl with
    | [], _ => rfl
    | [a], _ => rfl
    | [a, b], _ => rfl
    | [a, b, c], _ => rfl
    | a :: b :: c :: d :: rest, hl => exact (hl a b c d rest rfl).elim

theorem nlToSpace_id (t : List Char) (h : ∀ c ∈ t, c ≠ '\n') :
    ∀ prev, nlToSpace prev t = t := by
  induction t with
  | nil => intro prev; rfl
  | cons c rest ih =>
    intro prev
    unfold nlToSpace
    have hc : c ≠ '\n' := h c (by simp)
    rw [if_neg (by tauto)]
    rw [ih (fun d hd => h d (List.mem_cons_of_mem c hd))]

theorem cnAux_id (t : List Char) (h : ∀ c ∈ t, c ≠ '\n') : ∀ k, cnAux k t = t := by
  induction t with
  | nil => intro k; rfl
  | cons c rest ih =>
    intro k
    unfold cnAux
    have hc : c ≠ '\n' := h c (by simp)
    rw [if_neg hc]
    rw [ih (fun d hd => h d (List.mem_cons_of_mem c hd))]

theorem repl2_id_first (a b x y : Char) : ∀ l : List Char, a ∉ l →
    repl2 a b x y l = l := by
  intro l
  induction l using repl2.induct a b x y with
  | case1 c d rest hcd ih =>
    intro ha
    exact absurd (by simp [hcd.1] : a ∈ c :: d :: rest) ha
  | case2 c d rest hcd ih =>
    intro ha
    have hstep : repl2 a b x y (c :: d :: rest) = c :: repl2 a b x y (d :: rest) := by
      show (if c = a ∧ d = b then x :: y :: repl2 a b x y rest
        else c :: repl2 a b x y (d :: rest)) = _
      rw [if_neg hcd]
    rw [hstep, ih (fun hm => ha (List.mem_cons_of_mem c hm))]
  | case3 l hl =>
    intro _
    match l, hl with
    | [], _ => rfl
    | [c], _ => rfl
    | c :: d :: rest, hl => exact (hl c d rest rfl).elim

theorem repl2_id_second (a b x y : Char) : ∀ l : List Char, b ∉ l →
    repl2 a b x y l = l := by
  intro l
  induction l using repl2.induct a b x y with
  | case1 c d rest hcd ih =>
    intro hb
    exact absurd (by simp [hcd.2] : b ∈ c :: d :: rest) hb
  | case2 c d rest hcd ih =>
    intro hb
    have hstep : repl2 a b x y (c :: d :: rest) = c :: repl2 a b x y (d :: rest) := by
      show (if c = a ∧ d = b then x :: y :: repl2 a b x y rest
        else c :: repl2 a b x y (d :: rest)) = _
      rw [if_neg hcd]
    rw [hstep, ih (fun hm => hb (List.mem_cons_of_mem c hm))]
  | case3 l hl =>
    intro _
    match l, hl with
    | [], _ => rfl
    | [c], _ => rfl
    | c :: d :: rest, hl => exact (hl c d rest rfl).elim

theorem dropGarbage_id (t : List Char) (h : ∀ c ∈ t, allowedChar c = true) :
    dropGarbage t = t :=
  List.filter_eq_self.mpr h

theorem noDouble_tail (c : Char) (rest : List Char) (h : noDouble (c :: rest) = true) :
    noDouble rest = true := by
  cases rest with
  | nil => rfl
  | cons e rest' =>
    have h' : (!((c == ' ') && (e == ' ')) && noDouble (e :: rest')) = true := h
    rw [Bool.and_eq_true] at h'
    exact h'.2

theorem noDouble_head (e : Char) (rest' : List Char)
    (h : noDouble (' ' :: e :: rest') = true) : e ≠ ' ' := by
  have h' : (!(((' ' : Char) == ' ') && (e == ' ')) && noDouble (e :: rest')) = true := h
  rw [Bool.and_eq_true] at h'
  have := h'.1
  simp only [Bool.not_eq_true', Bool.and_eq_false_iff, beq_eq_false_iff_ne] at this
  rcases this with h'' | h''
  · exact absurd rfl h''
  · exact h''

theorem cwAux_id (t : List Char) : (∀ c ∈ t, isPySpace c = true → c = ' ') →
    noDouble t = true →
    (cwAux false t = t ∧ (noLeadSpace t = true → cwAux true t = t)) := by
  induction t with
  | nil => exact fun _ _ => ⟨rfl, fun _ => rfl⟩
  | cons c rest ih =>
    intro hok hnd
    have hok' : ∀ d ∈ rest, isPySpace d = true → d = ' ' :=
      fun d hd => hok d (List.mem_cons_of_mem c hd)
    have hnd' : noDouble rest = true := noDouble_tail c rest hnd
    by_cases hs : isPySpace c = true
    · have hc : c = ' ' := hok c (by simp) hs
      subst hc
      have hlead : noLeadSpace rest = true := by
        cases rest with
        | nil => rfl
        | cons e rest' =>
          have he := noDouble_head e rest' hnd
          unfold noLeadSpace
          simpa using he
      constructor
      · unfold cwAux
        rw [if_pos hs, if_neg (by simp)]
        rw [(ih hok' hnd').2 hlead]
      · intro hl
        exfalso
        unfold noLeadSpace at hl
        simp at hl
    · constructor
      · unfold cwAux
        rw [if_neg hs]
        rw [(ih hok' hnd').1]
      · intro _
        unfold cwAux
        rw [if_neg hs]
        rw [(ih hok' hnd').1]

theorem dropWhile_eq_self_of_head (p : Char → Bool) (l : List Char)
    (h : ∀ c, l.head? = some c → p c = false) : l.dropWhile p = l := by
  cases l with
  | nil => rfl
  | cons c rest =>
    rw [List.dropWhile_cons, if_neg]
    simp [h c rfl]

theorem pyStrip_id (t : List Char) (hok : ∀ c ∈ t, isPySpace c = true → c = ' ')
    (h1 : noLeadSpace t = true) (h2 : noLeadSpace t.reverse = true) : pyStrip t = t := by
  unfold pyStrip
  have hfirst : t.dropWhile isPySpace = t := by
    refine dropWhile_eq_self_of_head _ _ (fun c hc => ?_)
    cases t with
    | nil => simp at hc
    | cons e rest =>
      have hce : e = c := by simpa using hc
      subst hce
      unfold noLeadSpace at h1
      simp only [Bool.not_eq_true', beq_eq_false_iff_ne] at h1
      by_cases hs : isPySpace e = true
      · exact absurd (hok e (by simp) hs) h1
      · simpa using hs
  rw [hfirst]
  have hsecond : t.reverse.dropWhile isPySpace = t.reverse := by
    refine dropWhile_eq_self_of_head _ _ (fun c hc => ?_)
    cases hr : t.reverse with
    | nil => rw [hr] at hc; simp at hc
    | cons e rest =>
      rw [hr] at hc
      have hce : e = c := by simpa using hc
      subst hce
      rw [hr] at h2
      unfold noLeadSpace at h2
      simp only [Bool.not_eq_true', beq_eq_false_iff_ne] at h2
      have hcm : e ∈ t := by
        have he : e ∈ t.reverse := by rw [hr]; simp
        simpa using he
      by_cases hs : isPySpace e = true
      · exact absurd (hok e hcm hs) h2
      · simpa using hs
  rw [hsecond, List.reverse_reverse]

theorem clean_ocr_text_id (t : List Char) (h : cleanedShape t = true) :
    clean_ocr_text t = t := by
  have hcomp := h
  unfold cleanedShape at hcomp
  rw [Bool.and_eq_true, Bool.and_eq_true, Bool.and_eq_true] at hcomp
  obtain ⟨⟨⟨hall, hlead⟩, hlrev⟩, hnd⟩ := hcomp
  have hok : ∀ c ∈ t, okChar c = true := fun c hc => List.all_eq_true.mp hall c hc
  have hsp : ∀ c ∈ t, isPySpace c = true → c = ' ' :=
    fun c hc => okChar_pySpace c (hok c hc)
  have hO : 'O' ∉ t := fun hm => (okChar_ne_out 'O' 'O' (hok 'O' hm) (by decide) (by decide)) rfl
  have h0 : '0' ∉ t := fun hm => (okChar_ne_out '0' '0' (hok '0' hm) (by decide) (by decide)) rfl
  have h1' : '1' ∉ t := fun hm => (okChar_ne_out '1' '1' (hok '1' hm) (by decide) (by decide)) rfl
  have hI : 'I' ∉ t := fun hm => (okChar_ne_out 'I' 'I' (hok 'I' hm) (by decide) (by decide)) rfl
  have hl : 'l' ∉ t := by
    intro hm
    rcases okChar_elim _ (hok 'l' hm) with h' | ⟨_, _, hne⟩
    · exact absurd h' (by decide)
    · exact hne rfl
  have hnl : ∀ c ∈ t, c ≠ '\n' :=
    fun c hc => okChar_ne_out c '\n' (hok c hc) (by decide) (by decide)
  unfold clean_ocr_text
  by_cases hemp : t.isEmpty
  · rw [if_pos hemp]
    exact (List.isEmpty_iff.mp hemp).symm
  · rw [if_neg hemp]
    rw [mapPipe_id t (fun c hc => okChar_ne_out c '|' (hok c hc) (by decide) (by decide))]
    rw [mapDQuote_id t (fun c hc =>
      ⟨okChar_ne_out c (Char.ofNat 8220) (hok c hc) (by decide) (by decide),
       okChar_ne_out c (Char.ofNat 8221) (hok c hc) (by decide) (by decide)⟩)]
    rw [mapSQuote_id t (fun c hc =>
      ⟨okChar_ne_out c (Char.ofNat 8216) (hok c hc) (by decide) (by decide),
       okChar_ne_out c (Char.ofNat 8217) (hok c hc) (by decide) (by decide)⟩)]
    rw [dehyph_id t (fun hm =>
      (okChar_ne_out '-' '-' (hok '-' hm) (by decide) (by decide)) rfl)]
    rw [nlToSpace_id t hnl none]
    have hcoll : collapseNl t = t := cnAux_id t hnl 0
    rw [hcoll]
    rw [repl2_id_first 'O' '0' '0' '0' t hO]
    rw [repl2_id_first '0' 'O' '0' '0' t h0]
    rw [repl2_id_first 'l' '1' '1' '1' t hl]
    rw [repl2_id_first '1' 'l' '1' '1' t h1']
    rw [repl2_id_first 'I' '1' '1' '1' t hI]
    rw [repl2_id_first '1' 'I' '1' '1' t h1']
    rw [dropGarbage_id t (fun c hc => okChar_allowed c (hok c hc))]
    have hcw : collapseWs t = t := (cwAux_id t hsp hnd).1
    rw [hcw]
    exact pyStrip_id t hsp hlead hlrev

/- ----- helper lemmas: the digit zero never survives cleaning ----- -/

theorem pyStrip_subset (l : List Char) (c : Char) (hc : c ∈ pyStrip l) : c ∈ l := by
  unfold pyStrip at hc
  rw [List.mem_reverse] at hc
  have h1 := List.Sublist.mem hc (List.dropWhile_sublist isPySpace)
  rw [List.mem_reverse] at h1
  exact List.Sublist.mem h1 (List.dropWhile_sublist isPySpace)

theorem mem_cwAux (l : List Char) (c : Char) : ∀ b, c ∈ cwAux b l → c = ' ' ∨ c ∈ l := by
  induction l with
  | nil => intro b h; simp [cwAux] at h
  | cons d rest ih =>
    intro b h
    unfold cwAux at h
    by_cases hs : isPySpace d = true
    · rw [if_pos hs] at h
      cases b with
      | true =>
        rw [if_pos rfl] at h
        rcases ih true h with h' | h'
        · exact Or.inl h'
        · exact Or.inr (List.mem_cons_of_mem d h')
      | false =>
        rw [if_neg (by simp)] at h
        rcases List.mem_cons.mp h with h' | h'
        · exact Or.inl h'
        · rcases ih true h' with h'' | h''
          · exact Or.inl h''
          · exact Or.inr (List.mem_cons_of_mem d h'')
    · rw [if_neg hs] at h
      rcases List.mem_cons.mp h with h' | h'
      · exact Or.inr (h' ▸ List.mem_cons_self d rest)
      · rcases ih false h' with h'' | h''
        · exact Or.inl h''
        · exact Or.inr (List.mem_cons_of_mem d h'')

theorem no_zero_mapPipe (l : List Char) (h : '0' ∉ l) : '0' ∉ mapPipe l := by
  unfold mapPipe
  intro hm
  rw [List.mem_map] at hm
  obtain ⟨c, hc, he⟩ := hm
  by_cases h' : c = '|'
  · rw [if_pos h'] at he
    exact absurd he (by decide)
  · rw [if_neg h'] at he
    exact h (he ▸ hc)

theorem no_zero_enhCleanup (t : List Char) (h : '0' ∉ t) : '0' ∉ enhCleanup t := by
  unfold enhCleanup
  have h1 : '0' ∉ mapPipe t := no_zero_mapPipe t h
  rw [repl2_id_second 'O' '0' '0' '0' (mapPipe t) h1]
  rw [repl2_id_first '0' 'O' '0' '0' (mapPipe t) h1]
  intro hm
  have h2 := pyStrip_subset _ _ hm
  rcases mem_cwAux _ _ false h2 with h' | h'
  · exact absurd h' (by decide)
  · exact h1 h'

theorem clean_text_no_zero (t : List Char) : '0' ∉ clean_text t := by
  unfold clean_text
  by_cases he : t.isEmpty
  · rw [if_pos he]
    simp
  · rw [if_neg he]
    intro hm
    rw [List.mem_map] at hm
    obtain ⟨c, _, hc⟩ := hm
    by_cases h1 : (if c = '|' then 'I' else c) = '0'
    · rw [if_pos h1] at hc
      exact absurd hc (by decide)
    · rw [if_neg h1] at hc
      exact h1 hc

theorem no_zero_enhance (a b : List Char) (ha : '0' ∉ a) (hb : '0' ∉ b) :
    '0' ∉ enhance_text_extraction a b := by
  unfold enhance_text_extraction
  by_cases h1 : pyStrip a = []
  · rw [if_pos h1]
    exact hb
  · rw [if_neg h1]
    by_cases h2 : pyStrip b = []
    · rw [if_pos h2]
      exact ha
    · rw [if_neg h2]
      dsimp only
      by_cases h3 : 3 * (wordFinset a).card < 10 * ((wordFinset b) \ (wordFinset a)).card
      · rw [if_pos h3]
        exact no_zero_enhCleanup b hb
      · rw [if_neg h3]
        exact no_zero_enhCleanup a ha

theorem no_zero_fuse (a b : List Char) (ha : '0' ∉ a) (hb : '0' ∉ b) :
    '0' ∉ fuse a b := by
  unfold fuse
  by_cases h1 : 3 * b.length < 2 * a.length
  · rw [if_pos h1]
    exact ha
  · rw [if_neg h1]
    by_cases h2 : 6 * a.length < 5 * b.length
    · rw [if_pos h2]
      exact hb
    · rw [if_neg h2]
      exact no_zero_enhance a b ha hb

/- ----- helper lemmas: the engine and the orchestrator ----- -/

theorem extract_unavailable (b : Backend) (q : List Char) (h : b.available = false) :
    extract_text_from_image b q = (tessUnavailableMsg, 0) := by
  unfold extract_text_from_image
  rw [h]
  rfl

theorem extract_calls_eq (b : Backend) (q : List Char) (h : b.available = true)
    (hgood : ∀ k, ∃ t, b.run k = some t ∧ 10 < stripLen t) :
    (extract_text_from_image b q).2 = 1 + (methodsFor q).length * (psmsFor q).length := by
  unfold extract_text_from_image
  rw [h]
  simp only [Bool.not_true, Bool.false_eq_true, if_false]
  obtain ⟨t0, ht0, _⟩ := hgood 0
  rw [ht0]
  dsimp only
  have hlen : ((methodsFor q).flatMap (fun m => (psmsFor q).map (fun p => (m, p)))).length =
      (methodsFor q).length * (psmsFor q).length := flatMap_pairs_length _ _
  have hres := runAttempts_snd_length b hgood
    ((methodsFor q).flatMap (fun m => (psmsFor q).map (fun p => (m, p)))) 1 []
  have hpos : 0 < ((methodsFor q).flatMap (fun m => (psmsFor q).map (fun p => (m, p)))).length := by
    rw [hlen]
    exact Nat.mul_pos (methodsFor_length_pos q) (psmsFor_length_pos q)
  have hne : (runAttempts b ((methodsFor q).flatMap
      (fun m => (psmsFor q).map (fun p => (m, p)))) 1 []).2 ≠ [] := by
    intro he
    rw [he] at hres
    simp only [List.length_nil, Nat.zero_add] at hres
    omega
  rw [if_pos hne]
  dsimp only
  rw [runAttempts_fst, hlen]

theorem pageText_unavailable (b : Backend) (q : List Char) (hb : b.available = false) :
    pageText b q true [] = tessUnavailableMsg := by
  unfold pageText
  rw [extract_unavailable b q hb]
  dsimp only
  rw [if_pos rfl]
  exact (by decide : fuse (clean_text []) (clean_text tessUnavailableMsg) = tessUnavailableMsg)

theorem process_pdf_main_fst (doc : List (List Char)) (fb : Bool) (render : Nat → Img)
    (B : Nat → Backend) (q : List Char) :
    (process_pdf doc true fb render B q).1 = (List.range doc.length).map render := by
  unfold process_pdf
  rw [if_pos rfl]

theorem process_pdf_main_snd (doc : List (List Char)) (fb : Bool) (render : Nat → Img)
    (B : Nat → Backend) (q : List Char) :
    (process_pdf doc true fb render B q).2 =
      (List.range doc.length).map (fun i => pageText (B i) q true (doc.getD i [])) := by
  unfold process_pdf
  rw [if_pos rfl]
  dsimp only
  refine List.map_congr_left (fun i hi => ?_)
  have hi' : i < doc.length := List.mem_range.mp hi
  have hd : decide (i < ((List.range doc.length).map render).length) = true := by
    simp [hi']
  rw [hd]

theorem process_pdf_fallback_nil (render : Nat → Img) (B : Nat → Backend)
    (q : List Char) : process_pdf [] false true render B q = ([], []) := rfl

theorem process_pdf_fallback (doc : List (List Char)) (render : Nat → Img)
    (B : Nat → Backend) (q : List Char) (hne : doc ≠ []) :
    process_pdf doc false true render B q =
      ((List.range doc.length).map (fun _ => blankImage),
       doc.map (fun p => if p.isEmpty then extractionFailedMsg else p)) := by
  unfold process_pdf
  rw [if_neg (by simp)]
  rw [if_pos rfl]
  dsimp only
  have h1 : (doc.map (fun p => if p.isEmpty then extractionFailedMsg else p)).isEmpty = false := by
    cases doc with
    | nil => exact absurd rfl hne
    | cons p ps => rfl
  have h2 : (((List.range doc.length).map (fun _ => blankImage)) : List Img).isEmpty = false := by
    cases hmap : (List.range doc.length).map (fun _ : Nat => blankImage) with
    | nil =>
      exfalso
      have hlen := congrArg List.length hmap
      simp only [List.length_map, List.length_range, List.length_nil] at hlen
      exact hne (List.length_eq_zero.mp hlen)
    | cons x xs => rfl
  simp [h1, h2, hne]

/- ===== the claims ===== -/

/-- Claim C1: for any document with N pages, `process_pdf` returns an image
sequence and a text sequence with `len(images) = len(texts) = N` on the main
path and on the fallback path; under partial failure (main path raised,
fallback text extraction succeeded) every page without embedded text gets
the sentinel "Text extraction failed" string and a blank placeholder image,
never an absent entry. -/
theorem claim_C1 : ∀ (doc : List (List Char)) (mainOk fallbackOk : Bool)
    (render : Nat → Img) (B : Nat → Backend) (q : List Char),
    (mainOk || fallbackOk) = true →
    ((process_pdf doc mainOk fallbackOk render B q).1.length = doc.length ∧
     (process_pdf doc mainOk fallbackOk render B q).2.length = doc.length) ∧
    (mainOk = false → ∀ i, i < doc.length →
      (process_pdf doc mainOk fallbackOk render B q).2.getD i [] =
        (if (doc.getD i []).isEmpty then extractionFailedMsg else doc.getD i []) ∧
      (process_pdf doc mainOk fallbackOk render B q).1.getD i blankImage = blankImage) := by
  intro doc mainOk fallbackOk render B q hor
  cases mainOk with
  | true =>
    refine ⟨⟨?_, ?_⟩, ?_⟩
    · rw [process_pdf_main_fst]
      simp
    · rw [process_pdf_main_snd]
      simp
    · intro h
      cases h
  | false =>
    have hfb : fallbackOk = true := by simpa using hor
    subst hfb
    by_cases hd : doc = []
    · subst hd
      refine ⟨⟨rfl, rfl⟩, ?_⟩
      intro _ i hi
      simp at hi
    · rw [process_pdf_fallback doc render B q hd]
      refine ⟨⟨by simp, by simp⟩, ?_⟩
      intro _ i hi
      constructor
      · exact getD_map_lt _ doc i [] [] hi
      · exact getD_range_map (fun _ => blankImage) doc.length i blankImage hi

/-- Witness for claim C1: a concrete two-page document on the fallback path,
with the page lacking embedded text filled by the sentinel and a blank
image. -/
theorem claim_C1_witness :
    (process_pdf [['a', 'b'], []] false true (fun _ => [[1]])
        (fun _ => ⟨false, fun _ => none⟩) ("standard".toList)).2.getD 1 [] =
      extractionFailedMsg ∧
    (process_pdf [['a', 'b'], []] false true (fun _ => [[1]])
        (fun _ => ⟨false, fun _ => none⟩) ("standard".toList)).1.getD 0 blankImage =
      blankImage ∧
    (process_pdf [['a', 'b'], []] false true (fun _ => [[1]])
        (fun _ => ⟨false, fun _ => none⟩) ("standard".toList)).1.length = 2 := by
  obtain ⟨⟨hl1, hl2⟩, hf⟩ := claim_C1 [['a', 'b'], []] false true (fun _ => [[1]])
    (fun _ => ⟨false, fun _ => none⟩) ("standard".toList) rfl
  obtain ⟨ht1, hi1⟩ := hf rfl 1 (by decide)
  obtain ⟨ht0, hi0⟩ := hf rfl 0 (by decide)
  refine ⟨?_, hi0, hl1⟩
  rw [ht1]
  decide

/-- Counterexample to claim C2: a page whose embedded text has trimmed
length 101 > 100 characters, for which the page processing nonetheless
performs 10 OCR backend invocations (the connectivity test plus the 3 by 3
standard-quality cross-product) — the claimed skip-OCR threshold does not
exist in `process_pdf`. -/
theorem claim_C2_counterexample :
    100 < stripLen (List.replicate 101 'a') ∧
    pageOcrCalls ⟨true, fun k => if k = 1 then some (List.replicate 11 'a')
      else some ['h', 'i']⟩ ("standard".toList) = 10 ∧
    pageOcrCalls ⟨true, fun k => if k = 1 then some (List.replicate 11 'a')
      else some ['h', 'i']⟩ ("standard".toList) ≠ 0 := by
  refine ⟨by decide, by decide, by decide⟩

/-- Claim C2 (amended): OCR is invoked for every page regardless of the
embedded text's length — whenever the backend is available at least one
backend call is made for the page — and the page's resolved text equals the
cleaned embedded text whenever the cleaned embedded text is more than 1.5
times the length of the cleaned OCR text. -/
theorem claim_C2_amended : ∀ (doc : List (List Char)) (fallbackOk : Bool)
    (render : Nat → Img) (B : Nat → Backend) (q : List Char) (i : Nat),
    i < doc.length →
    ((B i).available = true → 1 ≤ pageOcrCalls (B i) q) ∧
    (3 * (clean_text (extract_text_from_image (B i) q).1).length <
        2 * (clean_text (doc.getD i [])).length →
      (process_pdf doc true fallbackOk render B q).2.getD i [] =
        clean_text (doc.getD i [])) := by
  intro doc fb render B q i hi
  constructor
  · exact fun h => extract_calls_pos (B i) q h
  · intro hlt
    rw [process_pdf_main_snd]
    rw [getD_range_map _ _ _ _ hi]
    unfold pageText
    dsimp only
    rw [if_pos rfl]
    unfold fuse
    rw [if_pos hlt]

/-- Witness for the amended claim C2 at a concrete one-page document whose
embedded text is 101 characters. -/
theorem claim_C2_amended_witness :
    (1 ≤ pageOcrCalls (⟨true, fun k => if k = 1 then some (List.replicate 11 'a')
      else some ['h', 'i']⟩ : Backend) ("standard".toList)) ∧
    (process_pdf [List.replicate 101 'a'] true true (fun _ => [[1]])
        (fun _ => ⟨true, fun k => if k = 1 then some (List.replicate 11 'a')
          else some ['h', 'i']⟩) ("standard".toList)).2.getD 0 [] =
      clean_text (List.replicate 101 'a') := by
  have h := claim_C2_amended [List.replicate 101 'a'] true (fun _ => [[1]])
    (fun _ => ⟨true, fun k => if k = 1 then some (List.replicate 11 'a')
      else some ['h', 'i']⟩) ("standard".toList) 0 (by decide)
  exact ⟨h.1 rfl, h.2 (by decide)⟩

/-- Counterexample to claim C3: with embedded text "x" and whitespace-only
OCR text "  ", the claim's whitespace short-circuit would return "x"
unmodified (as `fuseSpec` does), but the code's 1.2-times length branch
fires first and returns the whitespace-only OCR text. -/
theorem claim_C3_counterexample :
    fuse ['x'] [' ', ' '] = [' ', ' '] ∧ fuseSpec ['x'] [' ', ' '] = ['x'] ∧
      ([' ', ' '] : List Char) ≠ ['x'] := by
  refine ⟨by decide, by decide, by decide⟩

/-- Claim C3 (amended): the fusion policy first applies the strict length
comparisons (embedded wins when strictly more than 1.5 times longer, OCR
when strictly more than 1.2 times longer), returning the winner unmodified
even when it is whitespace-only; only then does an empty-or-whitespace-only
side yield the other unmodified; otherwise the OCR text is the base exactly
when its novel unique words exceed 0.3 of the embedded unique-word count,
and pipe-to-I, O0/0O digit-confusion and whitespace-collapse normalization
is applied to the chosen base only in this branch.  In particular
`fuse(a, "") = a` and `fuse("", b) = b` for all a, b. -/
theorem claim_C3_amended : ∀ a b : List Char,
    fuse a b = fuseAmended a b ∧ fuse a [] = a ∧ fuse [] b = b := by
  intro a b
  refine ⟨?_, ?_, ?_⟩
  · unfold fuse fuseAmended
    by_cases h1 : 3 * b.length < 2 * a.length
    · rw [if_pos h1, if_pos h1]
    · rw [if_neg h1, if_neg h1]
      by_cases h2 : 6 * a.length < 5 * b.length
      · rw [if_pos h2, if_pos h2]
      · rw [if_neg h2, if_neg h2]
        unfold enhance_text_extraction
        by_cases h3 : pyStrip a = []
        · rw [if_pos h3, if_pos h3]
        · rw [if_neg h3, if_neg h3]
          by_cases h4 : pyStrip b = []
          · rw [if_pos h4, if_pos h4]
          · rw [if_neg h4, if_neg h4]
            dsimp only
            by_cases h5 : 3 * (wordFinset a).card <
                10 * ((wordFinset b) \ (wordFinset a)).card
            · rw [if_pos h5, if_pos h5]
            · rw [if_neg h5, if_neg h5]
  · unfold fuse
    by_cases ha : a = []
    · subst ha
      decide
    · have h1 : 3 * ([] : List Char).length < 2 * a.length := by
        have : a.length ≠ 0 := by simpa [List.length_eq_zero] using ha
        simp
        omega
      rw [if_pos h1]
  · unfold fuse
    by_cases hb : b = []
    · subst hb
      decide
    · have h1 : ¬ 3 * b.length < 2 * ([] : List Char).length := by simp
      rw [if_neg h1]
      have h2 : 6 * ([] : List Char).length < 5 * b.length := by
        have : b.length ≠ 0 := by simpa [List.length_eq_zero] using hb
        simp
        omega
      rw [if_pos h2]

/-- Witness for the amended claim C3 at concrete inputs. -/
theorem claim_C3_amended_witness :
    fuse ['a', 'b'] [] = ['a', 'b'] ∧ fuse [] ['c'] = ['c'] := by
  exact ⟨(claim_C3_amended ['a', 'b'] []).2.1, (claim_C3_amended [] ['c']).2.2⟩

/-- Counterexample to claim C4: the cleaner is not idempotent.  On "OO0" one
application rewrites the single O0 pair giving "O00", and a second
application rewrites the newly created O0 pair giving "000". -/
theorem claim_C4_counterexample :
    clean_ocr_text (clean_ocr_text ['O', 'O', '0']) ≠ clean_ocr_text ['O', 'O', '0'] ∧
    clean_ocr_text ['O', 'O', '0'] = ['O', '0', '0'] ∧
    clean_ocr_text ['O', '0', '0'] = ['0', '0', '0'] := by
  refine ⟨by decide, by decide, by decide⟩

/-- Claim C4 (amended): the cleaner is idempotent on text already in cleaned
shape — strings of lowercase letters other than l separated by single
interior spaces — on which every rewriting stage is the identity; it is not
idempotent in general because the digit-confusion replacements can cascade. -/
theorem claim_C4_amended : ∀ t : List Char, cleanedShape t = true →
    clean_ocr_text (clean_ocr_text t) = clean_ocr_text t := by
  intro t h
  rw [clean_ocr_text_id t h, clean_ocr_text_id t h]

/-- Witness for the amended claim C4 at the concrete string "good morning". -/
theorem claim_C4_amended_witness :
    cleanedShape ("good morning".toList) = true ∧
    clean_ocr_text (clean_ocr_text ("good morning".toList)) =
      clean_ocr_text ("good morning".toList) :=
  ⟨by decide, claim_C4_amended ("good morning".toList) (by decide)⟩

/-- Claim C5: `select_best_ocr_result` returns "" on zero candidates, the
candidate itself on exactly one, and otherwise the candidate whose score
(0.01 trimmed length + 0.5 word count + 10 in-band bonus − 100 garbage
ratio + 5 sentence count, evaluated exactly over ℚ) is highest, ties going
to the first-seen candidate: the winner's index is the first index whose
score is maximal, every score is at most the winner's, and every earlier
candidate scores strictly less. -/
theorem claim_C5 :
    select_best_ocr_result [] = [] ∧
    (∀ t, select_best_ocr_result [t] = t) ∧
    (∀ rs : List (List Char), 2 ≤ rs.length →
      bestScoreIdx rs < rs.length ∧
      select_best_ocr_result rs = rs.getD (bestScoreIdx rs) [] ∧
      (∀ j, j < rs.length →
        score (rs.getD j []) ≤ score (rs.getD (bestScoreIdx rs) [])) ∧
      (∀ j, j < bestScoreIdx rs →
        score (rs.getD j []) < score (rs.getD (bestScoreIdx rs) []))) := by
  refine ⟨rfl, fun t => rfl, ?_⟩
  intro rs h2
  match rs, h2 with
  | a :: b :: l, _ =>
    have hmem : ((a :: b :: l).map score).foldl max (score a) ∈ (a :: b :: l).map score := by
      have h := foldl_max_mem ((a :: b :: l).map score) (score a)
      rcases List.mem_cons.mp h with h' | h'
      · rw [h']
        simp
      · exact h'
    obtain ⟨hidx, hval, hbefore⟩ :=
      idxOfFirst_spec (((a :: b :: l).map score).foldl max (score a))
        ((a :: b :: l).map score) hmem
    have hub : ∀ y ∈ (a :: b :: l).map score,
        y ≤ ((a :: b :: l).map score).foldl max (score a) :=
      fun y hy => foldl_max_ge_mem ((a :: b :: l).map score) (score a) y hy
    have hlen : ((a :: b :: l).map score).length = (a :: b :: l).length := by simp
    have hbi : bestScoreIdx (a :: b :: l) =
        idxOfFirst (((a :: b :: l).map score).foldl max (score a))
          ((a :: b :: l).map score) := rfl
    have hsel : select_best_ocr_result (a :: b :: l) =
        (a :: b :: l).getD (idxOfFirst (((a :: b :: l).map score).foldl max (score a))
          ((a :: b :: l).map score)) [] := rfl
    have hscore_at : ∀ j, j < (a :: b :: l).length →
        ((a :: b :: l).map score).getD j 0 = score ((a :: b :: l).getD j []) :=
      fun j hj => getD_map_lt score (a :: b :: l) j 0 [] hj
    have hbest_eq : score ((a :: b :: l).getD (bestScoreIdx (a :: b :: l)) []) =
        ((a :: b :: l).map score).foldl max (score a) := by
      rw [← hscore_at _ (by rw [← hlen]; exact hbi ▸ hidx), hbi, hval]
    refine ⟨?_, ?_, ?_, ?_⟩
    · rw [hbi, ← hlen]
      exact hidx
    · rw [hsel, hbi]
    · intro j hj
      rw [hbest_eq, ← hscore_at j hj]
      refine hub _ ?_
      rw [List.getD_eq_getElem _ _ (by rw [hlen]; exact hj)]
      exact List.getElem_mem _
    · intro j hj
      rw [hbi] at hj
      have hjlen : j < (a :: b :: l).length := by
        have := hidx
        rw [hlen] at this
        omega
      have hne := hbefore j hj
      rw [hscore_at j hjlen] at hne
      have hle : score ((a :: b :: l).getD j []) ≤
          ((a :: b :: l).map score).foldl max (score a) := by
        rw [← hscore_at j hjlen]
        refine hub _ ?_
        rw [List.getD_eq_getElem _ _ (by rw [hlen]; exact hjlen)]
        exact List.getElem_mem _
      rw [hbest_eq]
      exact lt_of_le_of_ne hle hne

/-- Witness for claim C5 at a concrete two-candidate list. -/
theorem claim_C5_witness :
    score ((["ab".toList, "The cat ran far.".toList]).getD 0 []) ≤
      score ((["ab".toList, "The cat ran far.".toList]).getD
        (bestScoreIdx ["ab".toList, "The cat ran far.".toList]) []) ∧
    select_best_ocr_result ["ab".toList, "The cat ran far.".toList] =
      (["ab".toList, "The cat ran far.".toList]).getD
        (bestScoreIdx ["ab".toList, "The cat ran far.".toList]) [] := by
  obtain ⟨h1, h2, h3, h4⟩ := claim_C5.2.2 ["ab".toList, "The cat ran far.".toList]
    (by decide)
  exact ⟨h3 0 (by decide), h2⟩

/-- Claim C6: when the OCR backend is unavailable, the availability probe is
checked before any backend OCR call and every page of the document receives
the fixed "OCR engine unavailable" sentinel: for a document of n pages with
no embedded text, processing returns n images and n sentinel strings, zero
backend `image_to_string` invocations are made for the whole document, and
(being a total function) no exception propagates. -/
theorem claim_C6 : ∀ (n : Nat) (fallbackOk : Bool) (render : Nat → Img)
    (B : Nat → Backend) (q : List Char),
    (∀ i, (B i).available = false) →
    (process_pdf (List.replicate n []) true fallbackOk render B q).1.length = n ∧
    (process_pdf (List.replicate n []) true fallbackOk render B q).2 =
      List.replicate n tessUnavailableMsg ∧
    docOcrCalls (List.replicate n []) B q = 0 := by
  intro n fb render B q hB
  refine ⟨?_, ?_, ?_⟩
  · rw [process_pdf_main_fst]
    simp
  · rw [process_pdf_main_snd]
    rw [List.eq_replicate_iff]
    constructor
    · simp
    · intro x hx
      rw [List.mem_map] at hx
      obtain ⟨i, hi, he⟩ := hx
      rw [← he]
      have hd : (List.replicate n ([] : List Char)).getD i [] = [] := by
        rw [List.getD_eq_getElem?_getD]
        rw [List.getElem?_replicate]
        by_cases h : i < n
        · rw [if_pos h]
          rfl
        · rw [if_neg h]
          rfl
      rw [hd]
      exact pageText_unavailable (B i) q (hB i)
  · unfold docOcrCalls
    have hz : ∀ i ∈ List.range (List.replicate n ([] : List Char)).length,
        pageOcrCalls (B i) q = (fun _ : Nat => 0) i := by
      intro i _
      unfold pageOcrCalls
      rw [extract_unavailable (B i) q (hB i)]
    rw [List.map_congr_left hz]
    simp

/-- Witness for claim C6: the three-page scenario with an unavailable
backend. -/
theorem claim_C6_witness :
    (process_pdf (List.replicate 3 []) true true (fun _ => [[1]])
        (fun _ => ⟨false, fun _ => none⟩) ("standard".toList)).1.length = 3 ∧
    (process_pdf (List.replicate 3 []) true true (fun _ => [[1]])
        (fun _ => ⟨false, fun _ => none⟩) ("standard".toList)).2 =
      List.replicate 3 tessUnavailableMsg ∧
    docOcrCalls (List.replicate 3 []) (fun _ => ⟨false, fun _ => none⟩)
      ("standard".toList) = 0 :=
  claim_C6 3 true (fun _ => [[1]]) (fun _ => ⟨false, fun _ => none⟩)
    ("standard".toList) (fun _ => rfl)

/-- Claim C7: deskew never raises — the deskew step as its callers run it
(under try/except) is a total function returning the unrotated input
unchanged whenever the rotation/projection computation raises (modeled by
`deskew_image` evaluating to `none`) — and on an image whose horizontal
projection has fewer than 2 detectable peaks (a uniform blank image in
particular) the returned image is pixel-equal to the input. -/
theorem claim_C7 : ∀ (rotate : Int → Img → Option Img) (image : Img),
    (deskew_image rotate image = none ∨
      peaksCount (diffs (hProjection image)) < 2) →
    deskew_attempt rotate image = image := by
  intro rot img h
  rcases h with h | h
  · unfold deskew_attempt
    rw [h]
    rfl
  · unfold deskew_attempt deskew_image
    dsimp only
    rw [if_pos h]
    rfl

/-- Witness for claim C7: a uniform blank 3 by 3 image (no detectable
peaks), and a peaky 4-row image with a rotation oracle that always raises. -/
theorem claim_C7_witness :
    deskew_attempt (fun _ _ => none) (List.replicate 3 (List.replicate 3 255)) =
      List.replicate 3 (List.replicate 3 255) ∧
    deskew_attempt (fun _ _ => none) [[0], [100], [0], [100]] =
      [[0], [100], [0], [100]] :=
  ⟨claim_C7 (fun _ _ => none) (List.replicate 3 (List.replicate 3 255))
      (Or.inr (by decide)),
   claim_C7 (fun _ _ => none) [[0], [100], [0], [100]] (Or.inl (by decide))⟩

/-- Counterexample to claim C8: with an always-succeeding backend, quality
level "fast" performs 2 backend `image_to_string` invocations (the
connectivity-test call of lines 211-220 plus the 1 by 1 cross-product), not
1; and "high" performs 21 (1 + 4 by 5), not 20. -/
theorem claim_C8_counterexample :
    (extract_text_from_image ⟨true, fun _ => some (List.replicate 11 'a')⟩
      ("fast".toList)).2 = 2 ∧
    (extract_text_from_image ⟨true, fun _ => some (List.replicate 11 'a')⟩
      ("fast".toList)).2 ≠ 1 ∧
    (extract_text_from_image ⟨true, fun _ => some (List.replicate 11 'a')⟩
      ("high".toList)).2 = 21 ∧
    (extract_text_from_image ⟨true, fun _ => some (List.replicate 11 'a')⟩
      ("high".toList)).2 ≠ 20 := by
  refine ⟨by decide, by decide, by decide, by decide⟩

/-- Claim C8 (amended): on a page requiring OCR with the backend reachable
and every attempt kept (no early discards and no raised attempt), the
backend is invoked once per (preprocessing variant, segmentation mode) pair
of the quality level's cross-product plus once for the initial
connectivity test: 1 + 1 by 1 = 2 invocations for "fast" and 1 + 4 by 5 =
21 for "high". -/
theorem claim_C8_amended : ∀ (b : Backend) (q : List Char),
    b.available = true →
    (∀ k, ∃ t, b.run k = some t ∧ 10 < stripLen t) →
    (extract_text_from_image b q).2 =
      1 + (methodsFor q).length * (psmsFor q).length ∧
    (extract_text_from_image b ("fast".toList)).2 = 2 ∧
    (extract_text_from_image b ("high".toList)).2 = 21 := by
  intro b q hav hgood
  have hq := extract_calls_eq b q hav hgood
  have hf := extract_calls_eq b ("fast".toList) hav hgood
  have hh := extract_calls_eq b ("high".toList) hav hgood
  refine ⟨hq, ?_, ?_⟩
  · rw [hf]
    decide
  · rw [hh]
    decide

/-- Witness for the amended claim C8 at a concrete always-succeeding
backend. -/
theorem claim_C8_amended_witness :
    (extract_text_from_image ⟨true, fun _ => some (List.replicate 12 'b')⟩
      ("fast".toList)).2 = 2 ∧
    (extract_text_from_image ⟨true, fun _ => some (List.replicate 12 'b')⟩
      ("high".toList)).2 = 21 := by
  have h := claim_C8_amended ⟨true, fun _ => some (List.replicate 12 'b')⟩
    ("fast".toList) rfl (fun k => ⟨List.replicate 12 'b', rfl, by decide⟩)
  exact ⟨h.2.1, h.2.2⟩

/-- Counterexample to claim C9: appending the well-formed sentence text
" I go." to the candidate "The cat ran far." holds the garbage-character
ratio constant (both 0) yet strictly decreases the score: the short
appended words drag the average word length below 3, losing the 10-point
band bonus, which outweighs the length, word-count and sentence gains. -/
theorem claim_C9_counterexample :
    score ("The cat ran far.".toList ++ " I go.".toList) <
      score ("The cat ran far.".toList) ∧
    garbageFrac ("The cat ran far.".toList ++ " I go.".toList) =
      garbageFrac ("The cat ran far.".toList) := by
  have ha1 : stripLen ("The cat ran far.".toList ++ " I go.".toList) = 22 := by decide
  have ha2 : wordCount ("The cat ran far.".toList ++ " I go.".toList) = 6 := by decide
  have ha3 : bandB ("The cat ran far.".toList ++ " I go.".toList) = false := by decide
  have ha4 : garbageCount ("The cat ran far.".toList ++ " I go.".toList) = 0 := by decide
  have ha5 : sentCount ("The cat ran far.".toList ++ " I go.".toList) = 2 := by decide
  have ha6 : ("The cat ran far.".toList ++ " I go.".toList).length = 22 := by decide
  have hb1 : stripLen ("The cat ran far.".toList) = 16 := by decide
  have hb2 : wordCount ("The cat ran far.".toList) = 4 := by decide
  have hb3 : bandB ("The cat ran far.".toList) = true := by decide
  have hb4 : garbageCount ("The cat ran far.".toList) = 0 := by decide
  have hb5 : sentCount ("The cat ran far.".toList) = 1 := by decide
  have hb6 : ("The cat ran far.".toList).length = 16 := by decide
  unfold score garbageFrac
  rw [ha1, ha2, ha3, ha4, ha5, ha6, hb1, hb2, hb3, hb4, hb5, hb6]
  norm_num

/-- Claim C9 (amended): appending text to a candidate never decreases its
score provided the garbage-character ratio does not increase and the
average-word-length band bonus is not lost; the trimmed length, word count
and sentence-pattern count are each monotone under appending, so these two
conditions are the only ways a score can drop.  (Appending well-formed
sentence text alone does not suffice: it can drag the average word length
out of the 3..10 band, see the counterexample.) -/
theorem claim_C9_amended : ∀ t s : List Char,
    garbageFrac (t ++ s) ≤ garbageFrac t →
    (bandB t = true → bandB (t ++ s) = true) →
    score t ≤ score (t ++ s) := by
  intro t s hg hb
  unfold score
  have h1 : (stripLen t : ℚ) ≤ (stripLen (t ++ s) : ℚ) := by
    exact_mod_cast stripLen_le_append t s
  have h2 : (wordCount t : ℚ) ≤ (wordCount (t ++ s) : ℚ) := by
    exact_mod_cast wordCount_le_append t s
  have h3 : (sentCount t : ℚ) ≤ (sentCount (t ++ s) : ℚ) := by
    exact_mod_cast sentCount_le_append t s
  have h4 : (if bandB t then (10 : ℚ) else 0) ≤
      (if bandB (t ++ s) then (10 : ℚ) else 0) := by
    by_cases hbt : bandB t = true
    · rw [if_pos hbt, if_pos (hb hbt)]
    · rw [if_neg hbt]
      by_cases hbs : bandB (t ++ s) = true
      · rw [if_pos hbs]
        norm_num
      · rw [if_neg hbs]
  linarith

/-- Witness for the amended claim C9: appending " The dog sat." keeps the
garbage ratio at zero and the average word length in band. -/
theorem claim_C9_amended_witness :
    score ("The cat ran far.".toList) ≤
      score ("The cat ran far.".toList ++ " The dog sat.".toList) := by
  refine claim_C9_amended ("The cat ran far.".toList) (" The dog sat.".toList) ?_ ?_
  · have h1 : garbageCount ("The cat ran far.".toList ++ " The dog sat.".toList) = 0 := by
      decide
    have h2 : garbageCount ("The cat ran far.".toList) = 0 := by decide
    unfold garbageFrac
    rw [h1, h2]
    simp
  · intro _
    decide

/-- Claim C10: on the non-fallback success path of `process_pdf`, no
returned page text contains the digit character 0: `clean_text`
unconditionally rewrites every 0 to O (and every pipe to I) in both the
embedded and the OCR text before fusion, and every fusion branch — the two
length branches and all branches of `enhance_text_extraction`, whose O0/0O
replacements and whitespace collapse cannot reintroduce a 0 — preserves
that absence. -/
theorem claim_C10 : ∀ (doc : List (List Char)) (fallbackOk : Bool)
    (render : Nat → Img) (B : Nat → Backend) (q : List Char) (t : List Char),
    t ∈ (process_pdf doc true fallbackOk render B q).2 → '0' ∉ t := by
  intro doc fb render B q t ht
  rw [process_pdf_main_snd] at ht
  rw [List.mem_map] at ht
  obtain ⟨i, hi, he⟩ := ht
  rw [← he]
  unfold pageText
  dsimp only
  rw [if_pos rfl]
  exact no_zero_fuse _ _ (clean_text_no_zero _) (clean_text_no_zero _)

/-- Witness for claim C10 at a concrete one-page document whose embedded
text contains a 0. -/
theorem claim_C10_witness :
    '0' ∉ (process_pdf ["a0b".toList] true true (fun _ => [[1]])
      (fun _ => ⟨false, fun _ => none⟩) ("standard".toList)).2.getD 0 [] := by
  apply claim_C10 ["a0b".toList] true (fun _ => [[1]])
    (fun _ => ⟨false, fun _ => none⟩) ("standard".toList)
  decide
